import Mathlib

/-!
Verification of the entanglement-witness engine and circuit-stepping state
machine of an educational quantum-circuit simulator.

The development shallowly embeds the core of `quantumsimulation.py`
(the bipartite and tripartite entanglement witnesses, the stepper's
entangled-set update, and the three circuit scenarios) together with the
oracle construction of `simulationwindows.py`.  Complex amplitudes are
modelled over `ℂ`, floating-point reals over `ℝ`, and the fixed 6-decimal
rounding of the source is modelled exactly.  The external quantum-state
simulator (cirq) and the external Schmidt-decomposition routine
(entdetector) are modelled by their mathematical contracts: reduced density
matrices are partial traces, gate application is matrix action, measurement
is projection followed by renormalisation, and Schmidt coefficients are the
singular values of the 2x2 amplitude matrix.
-/

open scoped BigOperators

set_option linter.unreachableTactic false
set_option linter.unusedTactic false
set_option linter.unnecessarySeqFocus false

/-- Complex conjugation shorthand. -/
def cconj (z : ℂ) : ℂ := (starRingEnd ℂ) z

/-- Rounding to 6 decimal places, as `numpy.around(x, 6)` / `round(x, 6)`
do on the (exact-real model of) floats. -/
noncomputable def round6 (x : ℝ) : ℝ := (round (x * 1000000) : ℤ) / 1000000

/-- `math.isclose(a, b)` with the default tolerances `rel_tol=1e-9`,
`abs_tol=0.0`:  `abs(a-b) <= max(rel_tol * max(abs(a), abs(b)), abs_tol)`. -/
def isclose (a b : ℝ) : Prop :=
  |a - b| ≤ max ((1 / 1000000000) * max |a| |b|) 0

lemma isclose_zero_iff (x : ℝ) : isclose x 0 ↔ x = 0 := by
  unfold isclose
  constructor
  · intro h
    have hx : |x - 0| = |x| := by simp
    have hm : max |x| |(0 : ℝ)| = |x| := by simp
    rw [hx, hm] at h
    have h0 : (0 : ℝ) ≤ |x| := abs_nonneg x
    have hmax : max ((1 / 1000000000) * |x|) 0 = (1 / 1000000000) * |x| := by
      refine max_eq_left ?_
      positivity
    rw [hmax] at h
    have hle : |x| ≤ 0 := by nlinarith
    exact abs_eq_zero.mp (le_antisymm hle h0)
  · intro h
    subst h
    simp

lemma round6_zero : round6 0 = 0 := by
  unfold round6
  norm_num

lemma round6_one : round6 1 = 1 := by
  unfold round6
  norm_num

/-! ### Two-qubit states and the bipartite witness -/

/-- A two-qubit pure-state amplitude vector, viewed (as the source does via
`schmidt_decomposition_for_vector_pure_state(v, (2, 2))`) as its 2x2
coefficient matrix. -/
abbrev V2 := Fin 2 → Fin 2 → ℂ

/-- Modelled from the spec: the external `entdetector` routine
`schmidt_decomposition_for_vector_pure_state` returns the Schmidt
coefficients of the bipartite pure state — the singular values of the 2x2
amplitude matrix `M`, non-negative and sorted descending.  For a 2x2 matrix
these are `sqrt ((T ± sqrt (T² - 4D)) / 2)` where `T = Tr(M Mᴴ)` and
`D = det (M Mᴴ) = |det M|²`. -/
noncomputable def schmidt_coefficients (ψ : V2) : List ℝ :=
  [Real.sqrt (((∑ i, ∑ j, Complex.normSq (ψ i j)) +
      Real.sqrt ((∑ i, ∑ j, Complex.normSq (ψ i j)) ^ 2 -
        4 * Complex.normSq (ψ 0 0 * ψ 1 1 - ψ 0 1 * ψ 1 0))) / 2),
   Real.sqrt (((∑ i, ∑ j, Complex.normSq (ψ i j)) -
      Real.sqrt ((∑ i, ∑ j, Complex.normSq (ψ i j)) ^ 2 -
        4 * Complex.normSq (ψ 0 0 * ψ 1 1 - ψ 0 1 * ψ 1 0))) / 2)]

open Classical in
/-- The number of entries of a real list equal to a given value
(`numpy.count_nonzero(arr == v)`). -/
noncomputable def countEq : List ℝ → ℝ → ℕ
  | [], _ => 0
  | x :: xs, v => (if x = v then 1 else 0) + countEq xs v

/-- `detect_entanglement_bipartite` (quantumsimulation.py, lines 11-18):
round the Schmidt coefficients to 6 decimals and report "entangled" unless
exactly one rounded coefficient is `1.0` and the remaining `size - 1`
rounded coefficients are `0.0`. -/
noncomputable def detect_entanglement_bipartite (result : V2) : Bool :=
  !(countEq ((schmidt_coefficients result).map round6) 1 == 1 &&
    countEq ((schmidt_coefficients result).map round6) 0 ==
      ((schmidt_coefficients result).map round6).length - 1)

lemma two_count_iff (a b : ℝ) :
    (countEq [a, b] 1 = 1 ∧ countEq [a, b] 0 = 1) ↔
      (countEq [a, b] 1 = 1 ∧ ∀ x ∈ [a, b], x ≠ 1 → x = 0) := by
  classical
  simp only [countEq, List.mem_cons, List.not_mem_nil, or_false, forall_eq_or_imp, forall_eq]
  by_cases h1 : a = 1 <;> by_cases h2 : b = 1 <;> by_cases h3 : a = 0 <;>
      by_cases h4 : b = 0 <;> simp_all

lemma detect_bipartite_false_iff (ψ : V2) :
    detect_entanglement_bipartite ψ = false ↔
      (countEq ((schmidt_coefficients ψ).map round6) 1 = 1 ∧
        countEq ((schmidt_coefficients ψ).map round6) 0 = 1) := by
  unfold detect_entanglement_bipartite
  have hlen : ((schmidt_coefficients ψ).map round6).length = 2 := by
    simp [schmidt_coefficients]
  rw [hlen]
  simp [Bool.and_eq_true]

/-- C1.  For every two-qubit state vector, the bipartite witness returns
`false` ("not entangled") iff, after rounding the Schmidt coefficients to 6
decimal places, exactly one rounded coefficient equals `1.0` and every
remaining rounded coefficient equals `0.0`; any other rounded distribution
yields `true` ("entangled"). -/
theorem claim_C1_bipartite_verdict_iff (ψ : V2) :
    detect_entanglement_bipartite ψ = false ↔
      (countEq ((schmidt_coefficients ψ).map round6) 1 = 1 ∧
        ∀ x ∈ (schmidt_coefficients ψ).map round6, x ≠ 1 → x = 0) := by
  obtain ⟨a, b, hab⟩ : ∃ a b, (schmidt_coefficients ψ).map round6 = [a, b] :=
    ⟨_, _, rfl⟩
  rw [detect_bipartite_false_iff, hab]
  exact two_count_iff a b

/-! ### The SimpleEntanglement detector (precedence quirk) -/

/-- Values that can appear in the simple-entanglement scenario's returned
tuple and in the stepper's `currently_entangled` set: named qubits and the
Python empty tuple `()`. -/
inductive SimElem where
  | qubit (name : String)
  | emptyTuple
deriving DecidableEq

namespace SimpleEntanglement

/-- `SimpleEntanglement.detect_entanglement` (quantumsimulation.py,
lines 178-179).  The Python return expression
`self.qubits["alice"], self.qubits["bob"] if detect_entanglement_bipartite(...) else ()`
parses as the pair `(alice, bob if ... else ())`. -/
noncomputable def detect_entanglement (simulation_step : V2) : SimElem × SimElem :=
  (SimElem.qubit "alice",
    if detect_entanglement_bipartite simulation_step then SimElem.qubit "bob"
    else SimElem.emptyTuple)

end SimpleEntanglement

/-- C8.  On every simulation step of the SimpleEntanglement scenario, the
scenario's detector returns a 2-tuple whose first element is the `alice`
qubit regardless of the bipartite witness's verdict; the second element is
the `bob` qubit when the witness reports entanglement and the empty tuple
otherwise. -/
theorem claim_C8_simple_detector_precedence (ψ : V2) :
    (SimpleEntanglement.detect_entanglement ψ).1 = SimElem.qubit "alice" ∧
      (SimpleEntanglement.detect_entanglement ψ).2 =
        (if detect_entanglement_bipartite ψ then SimElem.qubit "bob"
         else SimElem.emptyTuple) := by
  exact ⟨rfl, rfl⟩

/-! ### Three-qubit states and the tripartite witness -/

/-- A three-qubit amplitude tensor (the `cstate = state_vector().reshape((2,2,2))`
of the source), indexed by the basis labels of qubits A, B, C in order. -/
abbrev V3 := Fin 2 → Fin 2 → Fin 2 → ℂ

/-- Reduced density matrix of qubit A
(the simulator's `result.density_matrix_of([qubits[0]])`). -/
noncomputable def rhoA (ψ : V3) : Fin 2 → Fin 2 → ℂ :=
  fun a a' => ∑ b, ∑ c, ψ a b c * cconj (ψ a' b c)

/-- Reduced density matrix of qubit B
(the simulator's `result.density_matrix_of([qubits[1]])`). -/
noncomputable def rhoB (ψ : V3) : Fin 2 → Fin 2 → ℂ :=
  fun b b' => ∑ a, ∑ c, ψ a b c * cconj (ψ a b' c)

/-- Reduced density matrix of qubit C
(the simulator's `result.density_matrix_of([qubits[2]])`). -/
noncomputable def rhoC (ψ : V3) : Fin 2 → Fin 2 → ℂ :=
  fun c c' => ∑ a, ∑ b, ψ a b c * cconj (ψ a b c')

/-- Reduced density matrix of the pair A, B
(the simulator's `result.density_matrix_of([qubits[0], qubits[1]])`),
indexed by pairs `(a, b)` in row-major order. -/
noncomputable def rhoAB (ψ : V3) : Fin 2 × Fin 2 → Fin 2 × Fin 2 → ℂ :=
  fun p q => ∑ c, ψ p.1 p.2 c * cconj (ψ q.1 q.2 c)

/-- `i1 = float(numpy.trace(rhoA @ rhoA))` — purity of qubit A. -/
noncomputable def i1 (ψ : V3) : ℝ := (∑ a, ∑ a', rhoA ψ a a' * rhoA ψ a' a).re

/-- `i2 = float(numpy.trace(rhoB @ rhoB))` — purity of qubit B. -/
noncomputable def i2 (ψ : V3) : ℝ := (∑ b, ∑ b', rhoB ψ b b' * rhoB ψ b' b).re

/-- `i3 = float(numpy.trace(rhoC @ rhoC))` — purity of qubit C. -/
noncomputable def i3 (ψ : V3) : ℝ := (∑ c, ∑ c', rhoC ψ c c' * rhoC ψ c' c).re

/-- `tensorAB = numpy.kron(rhoA, rhoB)`. -/
noncomputable def tensorAB (ψ : V3) : Fin 2 × Fin 2 → Fin 2 × Fin 2 → ℂ :=
  fun p q => rhoA ψ p.1 q.1 * rhoB ψ p.2 q.2

/-- `i4 = float(numpy.trace(tensorAB @ rhoAB))`. -/
noncomputable def i4 (ψ : V3) : ℝ :=
  (∑ p : Fin 2 × Fin 2, ∑ q : Fin 2 × Fin 2, tensorAB ψ p q * rhoAB ψ q p).re

/-- The degree-4 polynomial `hdet` of the source (quantumsimulation.py,
lines 38-47), written term by term as there. -/
noncomputable def hdet (cstate : V3) : ℂ :=
  cstate 0 0 0 ^ 2 * cstate 1 1 1 ^ 2 + cstate 0 0 1 ^ 2 * cstate 1 1 0 ^ 2 +
    cstate 0 1 0 ^ 2 * cstate 1 0 1 ^ 2 + cstate 1 0 0 ^ 2 * cstate 0 1 1 ^ 2 -
    2 * cstate 0 0 0 * cstate 0 0 1 * cstate 1 1 0 * cstate 1 1 1 -
    2 * cstate 0 0 0 * cstate 0 1 0 * cstate 1 0 1 * cstate 1 1 1 -
    2 * cstate 0 0 0 * cstate 0 1 1 * cstate 1 0 0 * cstate 1 1 1 -
    2 * cstate 0 0 1 * cstate 0 1 0 * cstate 1 0 1 * cstate 1 1 0 -
    2 * cstate 0 0 1 * cstate 0 1 1 * cstate 1 1 0 * cstate 1 0 0 -
    2 * cstate 0 1 0 * cstate 0 1 1 * cstate 1 0 1 * cstate 1 0 0 +
    4 * cstate 0 0 0 * cstate 0 1 1 * cstate 1 0 1 * cstate 1 1 0 +
    4 * cstate 0 0 1 * cstate 0 1 0 * cstate 1 0 0 * cstate 1 1 1

/-- `i5 = abs(hdet) ** 2`. -/
noncomputable def i5 (ψ : V3) : ℝ := Complex.abs (hdet ψ) ^ 2

/-- `j1 = (1/4) * (1 + i1 - i2 - i3 - 2 * sqrt(i5))`. -/
noncomputable def j1 (ψ : V3) : ℝ :=
  (1 / 4) * (1 + i1 ψ - i2 ψ - i3 ψ - 2 * Real.sqrt (i5 ψ))

/-- `j2 = (1/4) * (1 - i1 + i2 - i3 - 2 * sqrt(i5))`. -/
noncomputable def j2 (ψ : V3) : ℝ :=
  (1 / 4) * (1 - i1 ψ + i2 ψ - i3 ψ - 2 * Real.sqrt (i5 ψ))

/-- `j3 = (1/4) * (1 - i1 - i2 + i3 - 2 * sqrt(i5))`. -/
noncomputable def j3 (ψ : V3) : ℝ :=
  (1 / 4) * (1 - i1 ψ - i2 ψ + i3 ψ - 2 * Real.sqrt (i5 ψ))

/-- `j4 = sqrt(i5)`. -/
noncomputable def j4 (ψ : V3) : ℝ := Real.sqrt (i5 ψ)

/-- `j5 = (1/4) * (3 - 3*i1 - 3*i2 - i3 + 4*i4 - 2*sqrt(i5))`. -/
noncomputable def j5 (ψ : V3) : ℝ :=
  (1 / 4) * (3 - 3 * i1 ψ - 3 * i2 ψ - i3 ψ + 4 * i4 ψ - 2 * Real.sqrt (i5 ψ))

/-- `rj1 = round(j1, 6)`. -/
noncomputable def rj1 (ψ : V3) : ℝ := round6 (j1 ψ)

/-- `rj2 = round(j2, 6)`. -/
noncomputable def rj2 (ψ : V3) : ℝ := round6 (j2 ψ)

/-- `rj3 = round(j3, 6)`. -/
noncomputable def rj3 (ψ : V3) : ℝ := round6 (j3 ψ)

/-- `rj4 = round(j4, 6)`. -/
noncomputable def rj4 (ψ : V3) : ℝ := round6 (j4 ψ)

/-- `rj5 = round(j5, 6)`. -/
noncomputable def rj5 (ψ : V3) : ℝ := round6 (j5 ψ)

open Classical in
/-- `detect_entanglement_tripartite` (quantumsimulation.py, lines 21-79):
computes the rounded invariants and classifies by the source's if/elif
cascade, each test being `math.isclose(rj, 0.0)`. -/
noncomputable def detect_entanglement_tripartite {Q : Type} (result : V3)
    (qubits : Fin 3 → Q) : Bool × String × Option (List Q) :=
  if isclose (rj1 result) 0 ∧ isclose (rj2 result) 0 ∧ isclose (rj3 result) 0 ∧
      isclose (rj4 result) 0 ∧ isclose (rj5 result) 0 then
    (false, "fully_separable", none)
  else if ¬isclose (rj1 result) 0 ∧ isclose (rj2 result) 0 ∧ isclose (rj3 result) 0 ∧
      isclose (rj4 result) 0 ∧ isclose (rj5 result) 0 then
    (true, "bipartite", some [qubits 1, qubits 2])
  else if isclose (rj1 result) 0 ∧ ¬isclose (rj2 result) 0 ∧ isclose (rj3 result) 0 ∧
      isclose (rj4 result) 0 ∧ isclose (rj5 result) 0 then
    (true, "bipartite", some [qubits 0, qubits 2])
  else if isclose (rj1 result) 0 ∧ isclose (rj2 result) 0 ∧ ¬isclose (rj3 result) 0 ∧
      isclose (rj4 result) 0 ∧ isclose (rj5 result) 0 then
    (true, "bipartite", some [qubits 0, qubits 1])
  else
    (true, "tripartite", some [qubits 0, qubits 1, qubits 2])

open Classical in
/-- The classification rule exactly as the spec words it: the five rounded
quantities are tested against zero in the stated priority order. -/
noncomputable def tripartite_verdict_spec {Q : Type} (r1 r2 r3 r4 r5 : ℝ)
    (qA qB qC : Q) : Bool × String × Option (List Q) :=
  if r1 = 0 ∧ r2 = 0 ∧ r3 = 0 ∧ r4 = 0 ∧ r5 = 0 then
    (false, "fully_separable", none)
  else if r1 ≠ 0 ∧ r2 = 0 ∧ r3 = 0 ∧ r4 = 0 ∧ r5 = 0 then
    (true, "bipartite", some [qB, qC])
  else if r2 ≠ 0 ∧ r1 = 0 ∧ r3 = 0 ∧ r4 = 0 ∧ r5 = 0 then
    (true, "bipartite", some [qA, qC])
  else if r3 ≠ 0 ∧ r1 = 0 ∧ r2 = 0 ∧ r4 = 0 ∧ r5 = 0 then
    (true, "bipartite", some [qA, qB])
  else
    (true, "tripartite", some [qA, qB, qC])

/-- C2.  The tripartite witness decides its verdict by testing the five
rounded quantities `j1..j5` against zero in exactly the spec's priority
order: all five zero gives `(false, fully_separable, none)`; `j1 ≠ 0` with
the rest zero gives bipartite `{B, C}`; `j2 ≠ 0` similarly `{A, C}`;
`j3 ≠ 0` similarly `{A, B}`; any other combination gives tripartite
`{A, B, C}`. -/
theorem claim_C2_tripartite_priority_order {Q : Type} (ψ : V3) (qubits : Fin 3 → Q) :
    detect_entanglement_tripartite ψ qubits =
      tripartite_verdict_spec (round6 (j1 ψ)) (round6 (j2 ψ)) (round6 (j3 ψ))
        (round6 (j4 ψ)) (round6 (j5 ψ)) (qubits 0) (qubits 1) (qubits 2) := by
  classical
  unfold detect_entanglement_tripartite tripartite_verdict_spec
  simp only [rj1, rj2, rj3, rj4, rj5, isclose_zero_iff]
  by_cases h1 : round6 (j1 ψ) = 0 <;> by_cases h2 : round6 (j2 ψ) = 0 <;>
    by_cases h3 : round6 (j3 ψ) = 0 <;> by_cases h4 : round6 (j4 ψ) = 0 <;>
    by_cases h5 : round6 (j5 ψ) = 0 <;>
    simp [h1, h2, h3, h4, h5]

/-- The hyperdeterminant-like polynomial exactly as the spec groups it:
sum of four squared-pair terms, minus twice a six-term group, plus four
times a two-term group. -/
noncomputable def spec_h (a : V3) : ℂ :=
  a 0 0 0 ^ 2 * a 1 1 1 ^ 2 + a 0 0 1 ^ 2 * a 1 1 0 ^ 2 +
    a 0 1 0 ^ 2 * a 1 0 1 ^ 2 + a 1 0 0 ^ 2 * a 0 1 1 ^ 2 -
    2 * (a 0 0 0 * a 0 0 1 * a 1 1 0 * a 1 1 1 +
      a 0 0 0 * a 0 1 0 * a 1 0 1 * a 1 1 1 +
      a 0 0 0 * a 0 1 1 * a 1 0 0 * a 1 1 1 +
      a 0 0 1 * a 0 1 0 * a 1 0 1 * a 1 1 0 +
      a 0 0 1 * a 0 1 1 * a 1 1 0 * a 1 0 0 +
      a 0 1 0 * a 0 1 1 * a 1 0 1 * a 1 0 0) +
    4 * (a 0 0 0 * a 0 1 1 * a 1 0 1 * a 1 1 0 +
      a 0 0 1 * a 0 1 0 * a 1 0 0 * a 1 1 1)

/-- C3.  The tripartite witness computes `i1, i2, i3` as the single-qubit
purities `Tr(ρ²)` of A, B, C, computes `i4 = Tr((ρA ⊗ ρB) · ρAB)`,
computes `i5 = |h|²` for the stated degree-4 polynomial `h` in the eight
amplitude-tensor components, and derives `j1..j5` by the spec's five
formulas, each rounded to 6 decimal places before comparison. -/
theorem claim_C3_invariant_formulas (ψ : V3) :
    i1 ψ = (Matrix.trace (Matrix.of (rhoA ψ) * Matrix.of (rhoA ψ))).re ∧
    i2 ψ = (Matrix.trace (Matrix.of (rhoB ψ) * Matrix.of (rhoB ψ))).re ∧
    i3 ψ = (Matrix.trace (Matrix.of (rhoC ψ) * Matrix.of (rhoC ψ))).re ∧
    i4 ψ = (Matrix.trace (Matrix.kroneckerMap (· * ·) (Matrix.of (rhoA ψ))
      (Matrix.of (rhoB ψ)) * Matrix.of (rhoAB ψ))).re ∧
    hdet ψ = spec_h ψ ∧
    i5 ψ = Complex.abs (spec_h ψ) ^ 2 ∧
    j1 ψ = (1 + i1 ψ - i2 ψ - i3 ψ - 2 * Real.sqrt (i5 ψ)) / 4 ∧
    j2 ψ = (1 - i1 ψ + i2 ψ - i3 ψ - 2 * Real.sqrt (i5 ψ)) / 4 ∧
    j3 ψ = (1 - i1 ψ - i2 ψ + i3 ψ - 2 * Real.sqrt (i5 ψ)) / 4 ∧
    j4 ψ = Real.sqrt (i5 ψ) ∧
    j5 ψ = (3 - 3 * i1 ψ - 3 * i2 ψ - i3 ψ + 4 * i4 ψ - 2 * Real.sqrt (i5 ψ)) / 4 ∧
    rj1 ψ = round6 (j1 ψ) ∧ rj2 ψ = round6 (j2 ψ) ∧ rj3 ψ = round6 (j3 ψ) ∧
    rj4 ψ = round6 (j4 ψ) ∧ rj5 ψ = round6 (j5 ψ) := by
  have hH : hdet ψ = spec_h ψ := by
    unfold hdet spec_h
    ring
  refine ⟨?_, ?_, ?_, ?_, hH, ?_, by unfold j1; ring, by unfold j2; ring,
    by unfold j3; ring, rfl, by unfold j5; ring, rfl, rfl, rfl, rfl, rfl⟩
  · unfold i1
    congr 1
  · unfold i2
    congr 1
  · unfold i3
    congr 1
  · unfold i4
    congr 1
  · unfold i5
    rw [hH]

/-- C9.  No entanglement-detection call can hit a square-root domain
failure: the value `i5` handed to every square root is non-negative (it is
the squared absolute value of `hdet`), and the witness's five-way case
split is exhaustive — it always returns one of the three category tags. -/
theorem claim_C9_no_domain_failure {Q : Type} (ψ : V3) (qubits : Fin 3 → Q) :
    0 ≤ i5 ψ ∧
      ((detect_entanglement_tripartite ψ qubits).2.1 = "fully_separable" ∨
        (detect_entanglement_tripartite ψ qubits).2.1 = "bipartite" ∨
        (detect_entanglement_tripartite ψ qubits).2.1 = "tripartite") := by
  classical
  constructor
  · unfold i5
    positivity
  · unfold detect_entanglement_tripartite
    split
    · left
      rfl
    · split
      · right
        left
        rfl
      · split
        · right
          left
          rfl
        · split
          · right
            left
            rfl
          · right
            right
            rfl

/-! ### Product states are classified fully separable -/

/-- The three-qubit product state `|ψA> ⊗ |ψB> ⊗ |ψC>`. -/
noncomputable def productState (α β γ : Fin 2 → ℂ) : V3 :=
  fun a b c => α a * β b * γ c

lemma trace_rhoA_sq_prod (α β γ : Fin 2 → ℂ) :
    (∑ a, ∑ a', rhoA (productState α β γ) a a' * rhoA (productState α β γ) a' a) =
      (α 0 * cconj (α 0) + α 1 * cconj (α 1)) ^ 2 *
        (β 0 * cconj (β 0) + β 1 * cconj (β 1)) ^ 2 *
        (γ 0 * cconj (γ 0) + γ 1 * cconj (γ 1)) ^ 2 := by
  simp only [rhoA, productState, cconj, map_mul, Fin.sum_univ_two]
  ring

lemma trace_rhoB_sq_prod (α β γ : Fin 2 → ℂ) :
    (∑ b, ∑ b', rhoB (productState α β γ) b b' * rhoB (productState α β γ) b' b) =
      (α 0 * cconj (α 0) + α 1 * cconj (α 1)) ^ 2 *
        (β 0 * cconj (β 0) + β 1 * cconj (β 1)) ^ 2 *
        (γ 0 * cconj (γ 0) + γ 1 * cconj (γ 1)) ^ 2 := by
  simp only [rhoB, productState, cconj, map_mul, Fin.sum_univ_two]
  ring

lemma trace_rhoC_sq_prod (α β γ : Fin 2 → ℂ) :
    (∑ c, ∑ c', rhoC (productState α β γ) c c' * rhoC (productState α β γ) c' c) =
      (α 0 * cconj (α 0) + α 1 * cconj (α 1)) ^ 2 *
        (β 0 * cconj (β 0) + β 1 * cconj (β 1)) ^ 2 *
        (γ 0 * cconj (γ 0) + γ 1 * cconj (γ 1)) ^ 2 := by
  simp only [rhoC, productState, cconj, map_mul, Fin.sum_univ_two]
  ring

lemma trace_i4_prod (α β γ : Fin 2 → ℂ) :
    (∑ p : Fin 2 × Fin 2, ∑ q : Fin 2 × Fin 2,
        tensorAB (productState α β γ) p q * rhoAB (productState α β γ) q p) =
      (α 0 * cconj (α 0) + α 1 * cconj (α 1)) ^ 3 *
        (β 0 * cconj (β 0) + β 1 * cconj (β 1)) ^ 3 *
        (γ 0 * cconj (γ 0) + γ 1 * cconj (γ 1)) ^ 3 := by
  simp only [tensorAB, rhoA, rhoB, rhoAB, productState, cconj, map_mul,
    Fin.sum_univ_two, Fintype.sum_prod_type]
  ring

lemma hdet_prod (α β γ : Fin 2 → ℂ) : hdet (productState α β γ) = 0 := by
  simp only [hdet, productState]
  ring

/-- C7.  For every (normalised) three-qubit pure product state
`|ψA> ⊗ |ψB> ⊗ |ψC>`, the tripartite witness returns the fully-separable
verdict: all five rounded `j` quantities vanish and the result is
`(false, "fully_separable", none)`. -/
theorem claim_C7_product_fully_separable {Q : Type} (α β γ : Fin 2 → ℂ)
    (qubits : Fin 3 → Q)
    (hα : α 0 * cconj (α 0) + α 1 * cconj (α 1) = 1)
    (hβ : β 0 * cconj (β 0) + β 1 * cconj (β 1) = 1)
    (hγ : γ 0 * cconj (γ 0) + γ 1 * cconj (γ 1) = 1) :
    detect_entanglement_tripartite (productState α β γ) qubits =
      (false, "fully_separable", none) := by
  classical
  have hi1 : i1 (productState α β γ) = 1 := by
    unfold i1
    rw [trace_rhoA_sq_prod, hα, hβ, hγ]
    norm_num
  have hi2 : i2 (productState α β γ) = 1 := by
    unfold i2
    rw [trace_rhoB_sq_prod, hα, hβ, hγ]
    norm_num
  have hi3 : i3 (productState α β γ) = 1 := by
    unfold i3
    rw [trace_rhoC_sq_prod, hα, hβ, hγ]
    norm_num
  have hi4 : i4 (productState α β γ) = 1 := by
    unfold i4
    rw [trace_i4_prod, hα, hβ, hγ]
    norm_num
  have hi5 : i5 (productState α β γ) = 0 := by
    unfold i5
    rw [hdet_prod]
    simp
  have hs : Real.sqrt (i5 (productState α β γ)) = 0 := by
    rw [hi5, Real.sqrt_zero]
  have hr1 : rj1 (productState α β γ) = 0 := by
    unfold rj1 j1
    rw [hi1, hi2, hi3, hs]
    norm_num [round6_zero]
  have hr2 : rj2 (productState α β γ) = 0 := by
    unfold rj2 j2
    rw [hi1, hi2, hi3, hs]
    norm_num [round6_zero]
  have hr3 : rj3 (productState α β γ) = 0 := by
    unfold rj3 j3
    rw [hi1, hi2, hi3, hs]
    norm_num [round6_zero]
  have hr4 : rj4 (productState α β γ) = 0 := by
    unfold rj4 j4
    rw [hs, round6_zero]
  have hr5 : rj5 (productState α β γ) = 0 := by
    unfold rj5 j5
    rw [hi1, hi2, hi3, hi4, hs]
    norm_num [round6_zero]
  simp [detect_entanglement_tripartite, isclose_zero_iff, hr1, hr2, hr3, hr4, hr5]

/-- The computational basis vector `|0>` of a single qubit, used as a
concrete witness input. -/
noncomputable def baseVec : Fin 2 → ℂ := fun i => if i = 0 then 1 else 0

/-- Witness for C7: the concrete product state `|0>⊗|0>⊗|0>` satisfies the
normalisation hypotheses and is classified fully separable. -/
theorem claim_C7_product_fully_separable_witness :
    (baseVec 0 * cconj (baseVec 0) + baseVec 1 * cconj (baseVec 1) = 1) ∧
      detect_entanglement_tripartite (productState baseVec baseVec baseVec)
        (fun i : Fin 3 => (i : ℕ)) = (false, "fully_separable", none) := by
  have h : baseVec 0 * cconj (baseVec 0) + baseVec 1 * cconj (baseVec 1) = 1 := by
    simp [baseVec, cconj]
  exact ⟨h, claim_C7_product_fully_separable baseVec baseVec baseVec _ h h h⟩

/-! ### The stepper's entangled-set update -/

/-- The `currently_entangled` update performed by `SteppingSimInterface.step`
(quantumsimulation.py, lines 128-135): union in the implicated qubits (when
the detector returned a tuple), then, if the measured qubit is currently a
member, remove it and clear the whole set when its size drops to 1 or
less. -/
def stepper_update {E : Type} [DecidableEq E] (S : Finset E)
    (entangled : Option (Finset E)) (measured : Option E) : Finset E :=
  let S1 := match entangled with
    | none => S
    | some t => S ∪ t
  match measured with
  | none => S1
  | some q =>
    if q ∈ S1 then
      if (S1.erase q).card ≤ 1 then ∅ else S1.erase q
    else S1

lemma stepper_update_card {E : Type} [DecidableEq E] (S : Finset E)
    (entangled : Option (Finset E)) (measured : Option E)
    (hS : S.card = 0 ∨ 2 ≤ S.card)
    (hent : ∀ t, entangled = some t → t.card ≠ 1) :
    (stepper_update S entangled measured).card = 0 ∨
      2 ≤ (stepper_update S entangled measured).card := by
  classical
  have hS1 : (match entangled with
      | none => S
      | some t => S ∪ t).card = 0 ∨
      2 ≤ (match entangled with
      | none => S
      | some t => S ∪ t).card := by
    cases entangled with
    | none => exact hS
    | some t =>
      rcases hS with h0 | h2
      · have hempty : S = ∅ := Finset.card_eq_zero.mp h0
        subst hempty
        simp only [Finset.empty_union]
        have := hent t rfl
        omega
      · right
        calc 2 ≤ S.card := h2
          _ ≤ (S ∪ t).card := Finset.card_le_card Finset.subset_union_left
  unfold stepper_update
  cases measured with
  | none => exact hS1
  | some q =>
    simp only
    split
    · split
      · left
        simp
      · right
        omega
    · exact hS1

/-- C5.  For every run of the stepper in which each step's set of
implicated qubits is never a singleton (as holds for every scenario's
detector), the entangled set after any number of completed steps has size
0 or size at least 2: the union/remove/clear update never leaves exactly
one member. -/
theorem claim_C5_entangled_set_invariant {E : Type} [DecidableEq E]
    (inputs : List (Option (Finset E) × Option E))
    (h : ∀ p ∈ inputs, ∀ t, p.1 = some t → t.card ≠ 1) :
    (inputs.foldl (fun S p => stepper_update S p.1 p.2) ∅).card = 0 ∨
      2 ≤ (inputs.foldl (fun S p => stepper_update S p.1 p.2) ∅).card := by
  classical
  suffices hgen : ∀ (S : Finset E), S.card = 0 ∨ 2 ≤ S.card →
      (∀ p ∈ inputs, ∀ t, p.1 = some t → t.card ≠ 1) →
      (inputs.foldl (fun S p => stepper_update S p.1 p.2) S).card = 0 ∨
        2 ≤ (inputs.foldl (fun S p => stepper_update S p.1 p.2) S).card by
    exact hgen ∅ (by simp) h
  clear h
  induction inputs with
  | nil =>
    intro S hS _
    simpa using hS
  | cons p ps ih =>
    intro S hS h
    simp only [List.foldl_cons]
    exact ih (stepper_update S p.1 p.2)
      (stepper_update_card S p.1 p.2 hS (h p (by simp)))
      (fun q hq t ht => h q (by simp [hq]) t ht)

/-- Witness for C5: a concrete two-step trace (entangle a pair, then
measure one of its members) ends with the set cleared to size 0. -/
theorem claim_C5_entangled_set_invariant_witness :
    (∀ p ∈ [((some ({1, 2} : Finset ℕ), some 1) :
        Option (Finset ℕ) × Option ℕ)], ∀ t, p.1 = some t → t.card ≠ 1) ∧
      (([((some ({1, 2} : Finset ℕ), some 1) :
        Option (Finset ℕ) × Option ℕ)].foldl
          (fun S p => stepper_update S p.1 p.2) ∅).card = 0 ∨
        2 ≤ ([((some ({1, 2} : Finset ℕ), some 1) :
        Option (Finset ℕ) × Option ℕ)].foldl
          (fun S p => stepper_update S p.1 p.2) ∅).card) := by
  have h : ∀ p ∈ [((some ({1, 2} : Finset ℕ), some 1) :
      Option (Finset ℕ) × Option ℕ)], ∀ t, p.1 = some t → t.card ≠ 1 := by
    decide
  exact ⟨h, claim_C5_entangled_set_invariant _ h⟩

/-! ### Gate and measurement semantics of the external simulator -/

/-- `1 / sqrt 2` as a complex scalar. -/
noncomputable def invsqrt2 : ℂ := ((Real.sqrt 2)⁻¹ : ℝ)

lemma sqrt_two_pos : 0 < Real.sqrt 2 := Real.sqrt_pos.mpr (by norm_num)

lemma real_invsqrt2_mul_self : (Real.sqrt 2)⁻¹ * (Real.sqrt 2)⁻¹ = 1 / 2 := by
  rw [← mul_inv, Real.mul_self_sqrt (by norm_num : (0 : ℝ) ≤ 2)]
  norm_num

lemma invsqrt2_mul_self : invsqrt2 * invsqrt2 = 1 / 2 := by
  unfold invsqrt2
  rw [← Complex.ofReal_mul, real_invsqrt2_mul_self]
  norm_num

lemma normSq_invsqrt2 : Complex.normSq invsqrt2 = 1 / 2 := by
  unfold invsqrt2
  rw [Complex.normSq_ofReal, real_invsqrt2_mul_self]

/-- The Hadamard gate matrix. -/
noncomputable def Hmat : Fin 2 → Fin 2 → ℂ :=
  fun i j => invsqrt2 * (if i = 1 ∧ j = 1 then -1 else 1)

/-- The Pauli-X gate matrix. -/
noncomputable def Xmat : Fin 2 → Fin 2 → ℂ := fun i j => if i = j then 0 else 1

/-- The Pauli-Z gate matrix. -/
noncomputable def Zmat : Fin 2 → Fin 2 → ℂ :=
  fun i j => if i = j then (if i = 1 then -1 else 0 + 1) else 0

/-- Apply a one-qubit gate to the first qubit of a two-qubit state. -/
noncomputable def apply0V2 (U : Fin 2 → Fin 2 → ℂ) (ψ : V2) : V2 :=
  fun i j => ∑ i', U i i' * ψ i' j

/-- Apply a one-qubit gate to the second qubit of a two-qubit state. -/
noncomputable def apply1V2 (U : Fin 2 → Fin 2 → ℂ) (ψ : V2) : V2 :=
  fun i j => ∑ j', U j j' * ψ i j'

/-- CNOT with qubit 0 as control and qubit 1 as target. -/
noncomputable def cnot01V2 (ψ : V2) : V2 := fun i j => ψ i (j + i)

/-- Projection of the first qubit onto a measurement outcome. -/
noncomputable def proj0V2 (o : Fin 2) (ψ : V2) : V2 :=
  fun i j => if i = o then ψ i j else 0

/-- Projection of the second qubit onto a measurement outcome. -/
noncomputable def proj1V2 (o : Fin 2) (ψ : V2) : V2 :=
  fun i j => if j = o then ψ i j else 0

/-- Squared norm of a two-qubit state. -/
noncomputable def norm2Sq (ψ : V2) : ℝ := ∑ i, ∑ j, Complex.normSq (ψ i j)

/-- Renormalisation, as the simulator applies after a measurement. -/
noncomputable def normalizeV2 (ψ : V2) : V2 :=
  fun i j => (((Real.sqrt (norm2Sq ψ))⁻¹ : ℝ) : ℂ) * ψ i j

/-- Measurement of the first qubit with a given outcome: collapse and
renormalise. -/
noncomputable def measure0V2 (o : Fin 2) (ψ : V2) : V2 := normalizeV2 (proj0V2 o ψ)

/-- A two-qubit computational basis state. -/
noncomputable def basisV2 (x y : Fin 2) : V2 :=
  fun i j => if i = x ∧ j = y then 1 else 0

/-! ### The SimpleEntanglement run -/

/-- Moment 1 of the simple-entanglement circuit: `H(alice)` on `|00>`. -/
noncomputable def SE_s1 : V2 := apply0V2 Hmat (basisV2 0 0)

/-- Moment 2: `CNOT(alice, bob)`. -/
noncomputable def SE_s2 : V2 := cnot01V2 SE_s1

/-- Moment 3: `Z(alice)`. -/
noncomputable def SE_s3 : V2 := apply0V2 Zmat SE_s2

/-- Moment 4: `Z(bob)`. -/
noncomputable def SE_s4 : V2 := apply1V2 Zmat SE_s3

/-- Moment 5: measurement of `alice` with outcome `o1`. -/
noncomputable def SE_s5 (o1 : Fin 2) : V2 := measure0V2 o1 SE_s4

lemma SE_s1_eq : SE_s1 = fun _ j => if j = 0 then invsqrt2 else 0 := by
  funext i j
  fin_cases i <;> fin_cases j <;>
    simp [SE_s1, apply0V2, Hmat, basisV2, Fin.sum_univ_two]

lemma SE_s2_eq : SE_s2 = fun i j => if i = j then invsqrt2 else 0 := by
  funext i j
  rw [SE_s2, SE_s1_eq]
  fin_cases i <;> fin_cases j <;> simp [cnot01V2]

lemma SE_s3_eq : SE_s3 = fun i j =>
    if i = j then (if i = 1 then -invsqrt2 else invsqrt2) else 0 := by
  funext i j
  rw [SE_s3, SE_s2_eq]
  fin_cases i <;> fin_cases j <;>
    simp [apply0V2, Zmat, Fin.sum_univ_two]

lemma SE_s4_eq : SE_s4 = fun i j => if i = j then invsqrt2 else 0 := by
  funext i j
  rw [SE_s4, SE_s3_eq]
  fin_cases i <;> fin_cases j <;>
    simp [apply1V2, Zmat, Fin.sum_univ_two]

lemma SE_s5_eq (o1 : Fin 2) : SE_s5 o1 = basisV2 o1 o1 := by
  have hproj : proj0V2 o1 SE_s4 = fun i j =>
      if i = o1 ∧ j = o1 then invsqrt2 else 0 := by
    funext i j
    rw [SE_s4_eq]
    fin_cases o1 <;> fin_cases i <;> fin_cases j <;> simp [proj0V2]
  have hnorm : norm2Sq (proj0V2 o1 SE_s4) = 1 / 2 := by
    rw [hproj]
    fin_cases o1 <;>
      simp [norm2Sq, Fin.sum_univ_two, normSq_invsqrt2]
  unfold SE_s5 measure0V2 normalizeV2
  rw [hnorm, hproj]
  have hval : ((Real.sqrt 2 : ℝ) : ℂ) * invsqrt2 = 1 := by
    unfold invsqrt2
    rw [← Complex.ofReal_mul, mul_inv_cancel₀ (ne_of_gt sqrt_two_pos)]
    norm_num
  funext i j
  by_cases h : i = o1 ∧ j = o1
  · simp [h, basisV2, hval]
  · simp [h, basisV2]

lemma schmidt_basis (x y : Fin 2) :
    schmidt_coefficients (basisV2 x y) = [1, 0] := by
  fin_cases x <;> fin_cases y <;>
    simp [schmidt_coefficients, basisV2, Fin.sum_univ_two]

lemma detect_of_coeffs_one_zero (ψ : V2)
    (h : schmidt_coefficients ψ = [1, 0]) :
    detect_entanglement_bipartite ψ = false := by
  classical
  rw [detect_bipartite_false_iff, h]
  norm_num [countEq, round6_one, round6_zero]

lemma detect_basis (x y : Fin 2) :
    detect_entanglement_bipartite (basisV2 x y) = false :=
  detect_of_coeffs_one_zero _ (schmidt_basis x y)

lemma detect_of_coeffs_equal (ψ : V2) (c : ℝ)
    (h : schmidt_coefficients ψ = [c, c]) :
    detect_entanglement_bipartite ψ = true := by
  classical
  unfold detect_entanglement_bipartite
  rw [h]
  by_cases hc : round6 c = 1
  · simp [countEq, hc]
  · simp [countEq, hc]

lemma detect_SE_s1 : detect_entanglement_bipartite SE_s1 = false := by
  apply detect_of_coeffs_one_zero
  rw [SE_s1_eq]
  simp only [schmidt_coefficients, Fin.sum_univ_two]
  norm_num [normSq_invsqrt2, Real.sqrt_one]

lemma schmidt_bell_form :
    schmidt_coefficients (fun i j => if i = j then invsqrt2 else 0) =
      [Real.sqrt (1 / 2), Real.sqrt (1 / 2)] := by
  have hd : (invsqrt2 * invsqrt2 - 0 * 0 : ℂ) = (((1 : ℝ) / 2 : ℝ) : ℂ) := by
    rw [invsqrt2_mul_self]
    norm_num
  simp only [schmidt_coefficients, Fin.sum_univ_two]
  norm_num [normSq_invsqrt2, hd, Complex.normSq_ofReal, Real.sqrt_zero]

lemma schmidt_bell_z_form :
    schmidt_coefficients (fun i j =>
      if i = j then (if i = 1 then -invsqrt2 else invsqrt2) else 0) =
      [Real.sqrt (1 / 2), Real.sqrt (1 / 2)] := by
  have hd : (invsqrt2 * -invsqrt2 - 0 * 0 : ℂ) = ((-(1 : ℝ) / 2 : ℝ) : ℂ) := by
    have := invsqrt2_mul_self
    push_cast
    rw [mul_neg, invsqrt2_mul_self]
    norm_num
  simp only [schmidt_coefficients, Fin.sum_univ_two]
  norm_num [normSq_invsqrt2, hd, Complex.normSq_ofReal, Real.sqrt_zero]

lemma detect_SE_s2 : detect_entanglement_bipartite SE_s2 = true := by
  apply detect_of_coeffs_equal _ (Real.sqrt (1 / 2))
  rw [SE_s2_eq]
  exact schmidt_bell_form

lemma detect_SE_s3 : detect_entanglement_bipartite SE_s3 = true := by
  apply detect_of_coeffs_equal _ (Real.sqrt (1 / 2))
  rw [SE_s3_eq]
  exact schmidt_bell_z_form

lemma detect_SE_s4 : detect_entanglement_bipartite SE_s4 = true := by
  apply detect_of_coeffs_equal _ (Real.sqrt (1 / 2))
  rw [SE_s4_eq]
  exact schmidt_bell_form

lemma detect_SE_s5 (o1 : Fin 2) :
    detect_entanglement_bipartite (SE_s5 o1) = false := by
  rw [SE_s5_eq]
  exact detect_basis o1 o1

/-- The set of elements the stepper unions into `currently_entangled` on a
SimpleEntanglement step: both components of the detector's returned pair. -/
noncomputable def SE_pair (ψ : V2) : Finset SimElem :=
  {(SimpleEntanglement.detect_entanglement ψ).1,
   (SimpleEntanglement.detect_entanglement ψ).2}

lemma SE_pair_of_false {ψ : V2} (h : detect_entanglement_bipartite ψ = false) :
    SE_pair ψ = {SimElem.qubit "alice", SimElem.emptyTuple} := by
  simp [SE_pair, SimpleEntanglement.detect_entanglement, h]

lemma SE_pair_of_true {ψ : V2} (h : detect_entanglement_bipartite ψ = true) :
    SE_pair ψ = {SimElem.qubit "alice", SimElem.qubit "bob"} := by
  simp [SE_pair, SimpleEntanglement.detect_entanglement, h]

/-- The `currently_entangled` set after the SimpleEntanglement scenario's
fifth step (the step that measures `alice` with outcome `o1`), obtained by
running the stepper's update on the five moments with the scenario's
measurement schedule. -/
noncomputable def SE_set5 (o1 : Fin 2) : Finset SimElem :=
  stepper_update (stepper_update (stepper_update (stepper_update (stepper_update ∅
    (some (SE_pair SE_s1)) none)
    (some (SE_pair SE_s2)) none)
    (some (SE_pair SE_s3)) none)
    (some (SE_pair SE_s4)) none)
    (some (SE_pair (SE_s5 o1))) (some (SimElem.qubit "alice"))

/-- C10.  In the SimpleEntanglement scenario, on every step where the
bipartite witness reports no entanglement the empty tuple is unioned into
the currently-entangled set as an element (so it counts toward the set's
size); consequently after the step that measures `alice` the set is
`{empty-tuple, bob}` of size 2 — non-empty though it contains only one
actual qubit — and is not cleared. -/
theorem claim_C10_empty_tuple_in_entangled_set :
    (∀ (S : Finset SimElem) (ψ : V2), detect_entanglement_bipartite ψ = false →
        SimElem.emptyTuple ∈ S ∪ SE_pair ψ) ∧
      ∀ o1 : Fin 2,
        SE_set5 o1 = {SimElem.emptyTuple, SimElem.qubit "bob"} ∧
          (SE_set5 o1).card = 2 := by
  constructor
  · intro S ψ h
    rw [SE_pair_of_false h]
    simp
  · intro o1
    have hset : SE_set5 o1 = {SimElem.emptyTuple, SimElem.qubit "bob"} := by
      unfold SE_set5
      rw [SE_pair_of_false detect_SE_s1, SE_pair_of_true detect_SE_s2,
        SE_pair_of_true detect_SE_s3, SE_pair_of_true detect_SE_s4,
        SE_pair_of_false (detect_SE_s5 o1)]
      decide
    exact ⟨hset, by rw [hset]; decide⟩

/-- Witness for C10: at the concrete post-measurement state `|00>` the
witness reports no entanglement, and the empty tuple is a member of the
updated set. -/
theorem claim_C10_empty_tuple_in_entangled_set_witness :
    detect_entanglement_bipartite (basisV2 0 0) = false ∧
      SimElem.emptyTuple ∈ (∅ : Finset SimElem) ∪ SE_pair (basisV2 0 0) :=
  ⟨detect_basis 0 0,
    claim_C10_empty_tuple_in_entangled_set.1 ∅ (basisV2 0 0) (detect_basis 0 0)⟩

/-! ### Three-qubit gate and measurement semantics -/

/-- Apply a one-qubit gate to qubit 0 of a three-qubit state. -/
noncomputable def apply0V3 (U : Fin 2 → Fin 2 → ℂ) (ψ : V3) : V3 :=
  fun m n k => ∑ m', U m m' * ψ m' n k

/-- Apply a one-qubit gate to qubit 1 of a three-qubit state. -/
noncomputable def apply1V3 (U : Fin 2 → Fin 2 → ℂ) (ψ : V3) : V3 :=
  fun m n k => ∑ n', U n n' * ψ m n' k

/-- Apply a one-qubit gate to qubit 2 of a three-qubit state. -/
noncomputable def apply2V3 (U : Fin 2 → Fin 2 → ℂ) (ψ : V3) : V3 :=
  fun m n k => ∑ k', U k k' * ψ m n k'

/-- CNOT with qubit 0 as control and qubit 1 as target. -/
noncomputable def cnot01V3 (ψ : V3) : V3 := fun m n k => ψ m (n + m) k

/-- CNOT with qubit 1 as control and qubit 2 as target. -/
noncomputable def cnot12V3 (ψ : V3) : V3 := fun m n k => ψ m n (k + n)

/-- CZ between qubit 0 and qubit 2. -/
noncomputable def cz02V3 (ψ : V3) : V3 :=
  fun m n k => (if m = 1 ∧ k = 1 then -1 else 1) * ψ m n k

/-- Projection of qubit 0 onto a measurement outcome. -/
noncomputable def proj0V3 (o : Fin 2) (ψ : V3) : V3 :=
  fun m n k => if m = o then ψ m n k else 0

/-- Projection of qubit 1 onto a measurement outcome. -/
noncomputable def proj1V3 (o : Fin 2) (ψ : V3) : V3 :=
  fun m n k => if n = o then ψ m n k else 0

/-- Projection of qubit 2 onto a measurement outcome. -/
noncomputable def proj2V3 (o : Fin 2) (ψ : V3) : V3 :=
  fun m n k => if k = o then ψ m n k else 0

/-- Squared norm of a three-qubit state. -/
noncomputable def norm3Sq (ψ : V3) : ℝ :=
  ∑ m, ∑ n, ∑ k, Complex.normSq (ψ m n k)

/-- Renormalisation after a measurement. -/
noncomputable def normalizeV3 (ψ : V3) : V3 :=
  fun m n k => (((Real.sqrt (norm3Sq ψ))⁻¹ : ℝ) : ℂ) * ψ m n k

/-- Measurement of qubit 0 with a given outcome. -/
noncomputable def measure0V3 (o : Fin 2) (ψ : V3) : V3 := normalizeV3 (proj0V3 o ψ)

/-- Measurement of qubit 1 with a given outcome. -/
noncomputable def measure1V3 (o : Fin 2) (ψ : V3) : V3 := normalizeV3 (proj1V3 o ψ)

/-- Measurement of qubit 2 with a given outcome. -/
noncomputable def measure2V3 (o : Fin 2) (ψ : V3) : V3 := normalizeV3 (proj2V3 o ψ)

/-- A three-qubit computational basis state. -/
noncomputable def basisV3 (x y z : Fin 2) : V3 :=
  fun m n k => if m = x ∧ n = y ∧ k = z then 1 else 0

/-! ### The QuantumTeleportation scenario -/

/-- The teleportation scenario's configurable setup gate: `X` or the
T-phase gate. -/
inductive SetupGate where
  | X
  | T

/-- cirq's `X ** t`:  global phase `exp(i·pi·t/2)` times the rotation
`[[cos(pi t/2), -i sin(pi t/2)], [-i sin(pi t/2), cos(pi t/2)]]`. -/
noncomputable def XPowMat (t : ℝ) : Fin 2 → Fin 2 → ℂ :=
  fun i j => Complex.exp ((Real.pi * t / 2 : ℝ) * Complex.I) *
    (if i = j then ((Real.cos (Real.pi * t / 2) : ℝ) : ℂ)
     else -Complex.I * ((Real.sin (Real.pi * t / 2) : ℝ) : ℂ))

/-- cirq's `T ** t = Z ** (t/4)`:  `diag(1, exp(i·pi·t/4))`. -/
noncomputable def TPowMat (t : ℝ) : Fin 2 → Fin 2 → ℂ :=
  fun i j => if i = 0 ∧ j = 0 then 1
    else if i = 1 ∧ j = 1 then Complex.exp ((Real.pi * t / 4 : ℝ) * Complex.I)
    else 0

/-- `self.setup_gate ** self.phase` of `QuantumTeleportation.__init__`. -/
noncomputable def setup_gate : SetupGate → ℝ → Fin 2 → Fin 2 → ℂ
  | SetupGate.X => XPowMat
  | SetupGate.T => TPowMat

/-- Moment 1 of the teleportation circuit: the setup gate on `msg`. -/
noncomputable def tp1 (g : SetupGate) (t : ℝ) : V3 :=
  apply0V3 (setup_gate g t) (basisV3 0 0 0)

/-- Moment 2: `H(alice)`. -/
noncomputable def tp2 (g : SetupGate) (t : ℝ) : V3 := apply1V3 Hmat (tp1 g t)

/-- Moment 3: `CNOT(alice, bob)`. -/
noncomputable def tp3 (g : SetupGate) (t : ℝ) : V3 := cnot12V3 (tp2 g t)

/-- Moment 4: `CNOT(msg, alice)`. -/
noncomputable def tp4 (g : SetupGate) (t : ℝ) : V3 := cnot01V3 (tp3 g t)

/-- Moment 5: `H(msg)`. -/
noncomputable def tp5 (g : SetupGate) (t : ℝ) : V3 := apply0V3 Hmat (tp4 g t)

/-- Moment 6: measurement of `msg` with outcome `m1`. -/
noncomputable def tp6 (g : SetupGate) (t : ℝ) (m1 : Fin 2) : V3 :=
  measure0V3 m1 (tp5 g t)

/-- Moment 7: measurement of `alice` with outcome `m2`. -/
noncomputable def tp7 (g : SetupGate) (t : ℝ) (m1 m2 : Fin 2) : V3 :=
  measure1V3 m2 (tp6 g t m1)

/-- Moment 8: `CNOT(alice, bob)` (classical correction). -/
noncomputable def tp8 (g : SetupGate) (t : ℝ) (m1 m2 : Fin 2) : V3 :=
  cnot12V3 (tp7 g t m1 m2)

/-- Moment 9: `CZ(msg, bob)` (classical correction). -/
noncomputable def tp9 (g : SetupGate) (t : ℝ) (m1 m2 : Fin 2) : V3 :=
  cz02V3 (tp8 g t m1 m2)

/-- cirq's Bloch vector of a one-qubit density matrix:
`(2 Re ρ01, 2 Im ρ10, Re (ρ00 - ρ11))`. -/
noncomputable def blochOfRho (ρ : Fin 2 → Fin 2 → ℂ) : Fin 3 → ℝ :=
  fun c => if c = 0 then 2 * (ρ 0 1).re
    else if c = 1 then 2 * (ρ 1 0).im
    else (ρ 0 0 - ρ 1 1).re

/-- `sim_step.bloch_vector_of(q)` for the three qubits (msg, alice, bob). -/
noncomputable def bloch_vector_of (q : Fin 3) (ψ : V3) : Fin 3 → ℝ :=
  blochOfRho (if q = 0 then rhoA ψ else if q = 1 then rhoB ψ else rhoC ψ)

/-- One recorded `bloch_states` entry: each qubit's Bloch vector rounded to
6 decimals (`numpy.around(sim_step.bloch_vector_of(q), 6)`). -/
noncomputable def stepBloch (ψ : V3) : Fin 3 → Fin 3 → ℝ :=
  fun q c => round6 (bloch_vector_of q ψ c)

namespace QuantumTeleportation

/-- The `bloch_states` history of a full teleportation run: one entry per
moment, in circuit order. -/
noncomputable def bloch_states (g : SetupGate) (t : ℝ) (m1 m2 : Fin 2) :
    List (Fin 3 → Fin 3 → ℝ) :=
  [stepBloch (tp1 g t), stepBloch (tp2 g t), stepBloch (tp3 g t),
   stepBloch (tp4 g t), stepBloch (tp5 g t), stepBloch (tp6 g t m1),
   stepBloch (tp7 g t m1 m2), stepBloch (tp8 g t m1 m2),
   stepBloch (tp9 g t m1 m2)]

/-- `QuantumTeleportation.check_results` (quantumsimulation.py, lines
244-245): `(self.bloch_states[0][0] == self.bloch_states[-1][2]).all()` —
the message qubit's recorded Bloch vector at step 0 equals the receiver
(bob) qubit's recorded Bloch vector at the last step. -/
noncomputable def check_results (g : SetupGate) (t : ℝ) (m1 m2 : Fin 2) : Prop :=
  (bloch_states g t m1 m2).headI 0 = (bloch_states g t m1 m2).getLastI 2

end QuantumTeleportation

lemma invsqrt2_sq : invsqrt2 ^ 2 = 1 / 2 := by
  rw [sq, invsqrt2_mul_self]

lemma normSq_half : Complex.normSq (1 / 2 : ℂ) = 1 / 4 := by
  rw [show (1 / 2 : ℂ) = (((1 : ℝ) / 2 : ℝ) : ℂ) by norm_num, Complex.normSq_ofReal]
  norm_num

lemma normSq_sqrt_two : Complex.normSq ((Real.sqrt 2 : ℝ) : ℂ) = 2 := by
  rw [Complex.normSq_ofReal, Real.mul_self_sqrt (by norm_num : (0 : ℝ) ≤ 2)]

lemma sqrt_half_inv : (Real.sqrt (1 / 2))⁻¹ = Real.sqrt 2 := by
  rw [show (1 / 2 : ℝ) = 2⁻¹ by norm_num, Real.sqrt_inv, inv_inv]

lemma tp1_eq (g : SetupGate) (t : ℝ) :
    tp1 g t = fun m n k =>
      if n = 0 ∧ k = 0 then setup_gate g t m 0 else 0 := by
  funext m n k
  fin_cases n <;> fin_cases k <;>
    simp [tp1, apply0V3, basisV3, Fin.sum_univ_two]

lemma tp2_eq (g : SetupGate) (t : ℝ) :
    tp2 g t = fun m _ k =>
      if k = 0 then invsqrt2 * setup_gate g t m 0 else 0 := by
  funext m n k
  rw [tp2, tp1_eq]
  fin_cases n <;> fin_cases k <;>
    simp [apply1V3, Hmat, Fin.sum_univ_two]

lemma tp3_eq (g : SetupGate) (t : ℝ) :
    tp3 g t = fun m n k =>
      if k = n then invsqrt2 * setup_gate g t m 0 else 0 := by
  funext m n k
  rw [tp3, tp2_eq]
  fin_cases n <;> fin_cases k <;> simp [cnot12V3]

lemma tp4_eq (g : SetupGate) (t : ℝ) :
    tp4 g t = fun m n k =>
      if k = n + m then invsqrt2 * setup_gate g t m 0 else 0 := by
  funext m n k
  rw [tp4, tp3_eq]
  fin_cases m <;> fin_cases n <;> fin_cases k <;> simp [cnot01V3]

lemma tp5_eq (g : SetupGate) (t : ℝ) :
    tp5 g t = fun m n k =>
      if n = k then (1 / 2 : ℂ) * setup_gate g t 0 0
      else (if m = 1 then -(1 / 2 : ℂ) else (1 / 2 : ℂ)) * setup_gate g t 1 0 := by
  funext m n k
  rw [tp5, tp4_eq]
  fin_cases m <;> fin_cases n <;> fin_cases k <;>
    simp [apply0V3, Hmat, Fin.sum_univ_two] <;> ring_nf <;>
    rw [invsqrt2_sq] <;> ring

lemma setup_gate_normSq (g : SetupGate) (t : ℝ) :
    Complex.normSq (setup_gate g t 0 0) + Complex.normSq (setup_gate g t 1 0) = 1 := by
  cases g with
  | X =>
    have h1 : Complex.normSq (Complex.exp ((Real.pi * t / 2 : ℝ) * Complex.I)) = 1 := by
      rw [Complex.normSq_eq_abs, Complex.abs_exp_ofReal_mul_I]
      norm_num
    have e00 : setup_gate SetupGate.X t 0 0 =
        Complex.exp ((Real.pi * t / 2 : ℝ) * Complex.I) *
          ((Real.cos (Real.pi * t / 2) : ℝ) : ℂ) := rfl
    have e10 : setup_gate SetupGate.X t 1 0 =
        Complex.exp ((Real.pi * t / 2 : ℝ) * Complex.I) *
          (-Complex.I * ((Real.sin (Real.pi * t / 2) : ℝ) : ℂ)) := rfl
    rw [e00, e10, Complex.normSq_mul, Complex.normSq_mul, h1, Complex.normSq_mul]
    simp only [Complex.normSq_neg, Complex.normSq_I, Complex.normSq_ofReal]
    nlinarith [Real.sin_sq_add_cos_sq (Real.pi * t / 2)]
  | T =>
    simp [setup_gate, TPowMat]

lemma norm_tp5_proj (g : SetupGate) (t : ℝ) (m1 : Fin 2)
    (hab : Complex.normSq (setup_gate g t 0 0) +
      Complex.normSq (setup_gate g t 1 0) = 1) :
    norm3Sq (proj0V3 m1 (tp5 g t)) = 1 / 2 := by
  rw [tp5_eq]
  fin_cases m1 <;>
    simp [norm3Sq, proj0V3, Fin.sum_univ_two, Complex.normSq_mul,
      Complex.normSq_neg, normSq_half] <;>
    nlinarith [hab]

lemma tp6_eq (g : SetupGate) (t : ℝ) (m1 : Fin 2)
    (hab : Complex.normSq (setup_gate g t 0 0) +
      Complex.normSq (setup_gate g t 1 0) = 1) :
    tp6 g t m1 = fun m n k =>
      if m = m1 then ((Real.sqrt 2 : ℝ) : ℂ) * tp5 g t m n k else 0 := by
  funext m n k
  unfold tp6 measure0V3 normalizeV3
  rw [norm_tp5_proj g t m1 hab]
  by_cases h : m = m1
  · simp [proj0V3, h, sqrt_half_inv]
  · simp [proj0V3, h]

lemma norm_tp6_proj (g : SetupGate) (t : ℝ) (m1 m2 : Fin 2)
    (hab : Complex.normSq (setup_gate g t 0 0) +
      Complex.normSq (setup_gate g t 1 0) = 1) :
    norm3Sq (proj1V3 m2 (tp6 g t m1)) = 1 / 2 := by
  rw [tp6_eq g t m1 hab, tp5_eq]
  fin_cases m1 <;> fin_cases m2 <;>
    simp [norm3Sq, proj1V3, Fin.sum_univ_two, Complex.normSq_mul,
      Complex.normSq_neg, normSq_half, normSq_sqrt_two] <;>
    nlinarith [hab]

lemma tp7_eq (g : SetupGate) (t : ℝ) (m1 m2 : Fin 2)
    (hab : Complex.normSq (setup_gate g t 0 0) +
      Complex.normSq (setup_gate g t 1 0) = 1) :
    tp7 g t m1 m2 = fun m n k =>
      if m = m1 ∧ n = m2 then (2 : ℂ) * tp5 g t m n k else 0 := by
  funext m n k
  unfold tp7 measure1V3 normalizeV3
  rw [norm_tp6_proj g t m1 m2 hab, tp6_eq g t m1 hab]
  by_cases h1 : m = m1 <;> by_cases h2 : n = m2
  · have h2c : ((Real.sqrt 2 : ℝ) : ℂ) * ((Real.sqrt 2 : ℝ) : ℂ) = 2 := by
      rw [← Complex.ofReal_mul, Real.mul_self_sqrt (by norm_num : (0 : ℝ) ≤ 2)]
      norm_num
    simp only [proj1V3, h1, h2, if_pos, sqrt_half_inv, and_self, if_true]
    rw [← mul_assoc, h2c]
  · simp [proj1V3, h1, h2]
  · simp [proj1V3, h1, h2]
  · simp [proj1V3, h1, h2]

lemma tp9_eq (g : SetupGate) (t : ℝ) (m1 m2 : Fin 2)
    (hab : Complex.normSq (setup_gate g t 0 0) +
      Complex.normSq (setup_gate g t 1 0) = 1) :
    tp9 g t m1 m2 = fun m n k =>
      if m = m1 ∧ n = m2 then
        (if k = 0 then setup_gate g t 0 0 else setup_gate g t 1 0)
      else 0 := by
  funext m n k
  rw [tp9, tp8, cz02V3, cnot12V3, tp7_eq g t m1 m2 hab, tp5_eq]
  fin_cases m1 <;> fin_cases m2 <;> fin_cases m <;> fin_cases n <;> fin_cases k <;>
    simp

lemma rhoC_tp9_eq_rhoA_tp1 (g : SetupGate) (t : ℝ) (m1 m2 : Fin 2)
    (hab : Complex.normSq (setup_gate g t 0 0) +
      Complex.normSq (setup_gate g t 1 0) = 1) :
    rhoC (tp9 g t m1 m2) = rhoA (tp1 g t) := by
  funext i j
  rw [tp9_eq g t m1 m2 hab, tp1_eq]
  fin_cases m1 <;> fin_cases m2 <;> fin_cases i <;> fin_cases j <;>
    simp [rhoA, rhoC, Fin.sum_univ_two, cconj]

/-- C4.  For every gate choice in `{X, T-phase}`, every real phase
parameter, and every pair of sampled measurement outcomes, the
QuantumTeleportation scenario's final check holds: the message qubit's
recorded (6-decimal-rounded) Bloch vector at step 0 equals the receiver
(bob) qubit's recorded Bloch vector at the last step. -/
theorem claim_C4_teleportation_final_check (g : SetupGate) (t : ℝ) (m1 m2 : Fin 2) :
    QuantumTeleportation.check_results g t m1 m2 := by
  have hab := setup_gate_normSq g t
  have hrho := rhoC_tp9_eq_rhoA_tp1 g t m1 m2 hab
  show (QuantumTeleportation.bloch_states g t m1 m2).headI 0 =
    (QuantumTeleportation.bloch_states g t m1 m2).getLastI 2
  have hhead : (QuantumTeleportation.bloch_states g t m1 m2).headI =
      stepBloch (tp1 g t) := rfl
  have hlast : (QuantumTeleportation.bloch_states g t m1 m2).getLastI =
      stepBloch (tp9 g t m1 m2) := rfl
  rw [hhead, hlast]
  funext c
  unfold stepBloch bloch_vector_of
  norm_num
  rw [hrho, if_neg (by decide : ¬(2 : Fin 3) = 0),
    if_neg (by decide : ¬(2 : Fin 3) = 1)]

/-! ### The DeutschJozsa scenario -/

/-- Flatten three qubit labels into an 8-dimensional basis index, in the
big-endian order cirq uses for the oracle's qubits `(q1, q2, control)`. -/
def toIdx (m n k : Fin 2) : Fin 8 :=
  ⟨4 * m.val + 2 * n.val + k.val, by
    have hm := m.isLt
    have hn := n.isLt
    have hk := k.isLt
    omega⟩

/-- First bit of an 8-dimensional basis index. -/
def bitA (j : Fin 8) : Fin 2 :=
  ⟨j.val / 4, by have := j.isLt; omega⟩

/-- Second bit of an 8-dimensional basis index. -/
def bitB (j : Fin 8) : Fin 2 :=
  ⟨j.val / 2 % 2, by have := j.isLt; omega⟩

/-- Third bit of an 8-dimensional basis index. -/
def bitC (j : Fin 8) : Fin 2 :=
  ⟨j.val % 2, by have := j.isLt; omega⟩

/-- Apply the caller-supplied 8x8 oracle unitary to all three qubits. -/
noncomputable def applyOracleV3 (U : Fin 8 → Fin 8 → ℂ) (ψ : V3) : V3 :=
  fun m n k => ∑ j, U (toIdx m n k) j * ψ (bitA j) (bitB j) (bitC j)

/-- The oracle matrix built from the 8-digit permutation string
(simulationwindows.py, line 218):  row `r` carries a `1` exactly in the
column named by the string's `r`-th digit (1-based). -/
noncomputable def oracle_matrix (digits : List ℕ) : Fin 8 → Fin 8 → ℂ :=
  fun r c => if (c : ℕ) + 1 = digits.getD (r : ℕ) 0 then 1 else 0

/-- The identity-like permutation string `"12345678"` (constant function). -/
def constDigits : List ℕ := [1, 2, 3, 4, 5, 6, 7, 8]

/-- A permutation string encoding a balanced function (the control bit is
flipped exactly when `q1 = 1`). -/
def balancedDigits : List ℕ := [1, 2, 3, 4, 6, 5, 8, 7]

/-- Moment 1 of the Deutsch-Jozsa circuit: `X(control)`. -/
noncomputable def dj1 : V3 := apply2V3 Xmat (basisV3 0 0 0)

/-- Moment 2: `H(q1)`. -/
noncomputable def dj2 : V3 := apply0V3 Hmat dj1

/-- Moment 3: `H(q2)`. -/
noncomputable def dj3 : V3 := apply1V3 Hmat dj2

/-- Moment 4: `H(control)`. -/
noncomputable def dj4 : V3 := apply2V3 Hmat dj3

/-- Moment 5: the oracle. -/
noncomputable def dj5 (digits : List ℕ) : V3 :=
  applyOracleV3 (oracle_matrix digits) dj4

/-- Moment 6: `H(q1)`. -/
noncomputable def dj6 (digits : List ℕ) : V3 := apply0V3 Hmat (dj5 digits)

/-- Moment 7: `H(q2)`. -/
noncomputable def dj7 (digits : List ℕ) : V3 := apply1V3 Hmat (dj6 digits)

/-- Moment 8: `H(control)`. -/
noncomputable def dj8 (digits : List ℕ) : V3 := apply2V3 Hmat (dj7 digits)

/-- Moment 9: measurement of `q1`. -/
noncomputable def dj9 (digits : List ℕ) (o1 : Fin 2) : V3 :=
  measure0V3 o1 (dj8 digits)

/-- Moment 10: measurement of `q2`. -/
noncomputable def dj10 (digits : List ℕ) (o1 o2 : Fin 2) : V3 :=
  measure1V3 o2 (dj9 digits o1)

/-- A measurement outcome is possible only when the projected state is not
the zero vector (cirq samples outcomes of nonzero probability). -/
def DJ_valid (digits : List ℕ) (o1 o2 o3 : Fin 2) : Prop :=
  proj0V3 o1 (dj8 digits) ≠ (fun _ _ _ => 0) ∧
    proj1V3 o2 (dj9 digits o1) ≠ (fun _ _ _ => 0) ∧
    proj2V3 o3 (dj10 digits o1 o2) ≠ (fun _ _ _ => 0)

namespace DeutschJozsa

/-- `DeutschJozsa.check_results` (quantumsimulation.py, lines 321-323):
`measurements["q1"][0] == 0 and measurements["q2"][0] == 0`. -/
def check_results (o1 o2 : Fin 2) : Bool :=
  decide (o1 = 0) && decide (o2 = 0)

end DeutschJozsa

lemma dj4_eq : dj4 = fun _ _ k =>
    (if k = 1 then (-1 : ℂ) else 1) * (invsqrt2 * (1 / 2 : ℂ)) := by
  have h1 : dj1 = basisV3 0 0 1 := by
    funext m n k
    fin_cases k <;>
      simp [dj1, apply2V3, Xmat, basisV3, Fin.sum_univ_two]
  have h2 : dj2 = fun _ n k => if n = 0 ∧ k = 1 then invsqrt2 else 0 := by
    funext m n k
    rw [dj2, h1]
    fin_cases n <;> fin_cases k <;>
      simp [apply0V3, Hmat, basisV3, Fin.sum_univ_two]
  have h3 : dj3 = fun _ _ k => if k = 1 then invsqrt2 * invsqrt2 else 0 := by
    funext m n k
    rw [dj3, h2]
    fin_cases k <;> simp [apply1V3, Hmat, Fin.sum_univ_two]
  funext m n k
  rw [dj4, h3]
  fin_cases k <;>
    simp [apply2V3, Hmat, Fin.sum_univ_two, invsqrt2_mul_self]

lemma dj5_const_eq : dj5 constDigits = dj4 := by
  funext m n k
  rw [dj5, dj4_eq]
  fin_cases m <;> fin_cases n <;> fin_cases k <;>
    simp +decide [applyOracleV3, oracle_matrix, constDigits, toIdx, bitA, bitB, bitC,
      Fin.sum_univ_eight]

lemma dj5_bal_eq : dj5 balancedDigits = fun m _ k =>
    (if m = 1 then (-1 : ℂ) else 1) *
      ((if k = 1 then (-1 : ℂ) else 1) * (invsqrt2 * (1 / 2 : ℂ))) := by
  funext m n k
  rw [dj5, dj4_eq]
  fin_cases m <;> fin_cases n <;> fin_cases k <;>
    simp +decide [applyOracleV3, oracle_matrix, balancedDigits, toIdx, bitA, bitB, bitC,
      Fin.sum_univ_eight]

lemma dj8_const_eq : dj8 constDigits = basisV3 0 0 1 := by
  have h6 : dj6 constDigits = fun m _ k =>
      if m = 0 then (if k = 1 then (-1 : ℂ) else 1) * (1 / 2 : ℂ) else 0 := by
    funext m n k
    rw [dj6, dj5_const_eq, dj4_eq]
    fin_cases m <;> fin_cases k <;>
      simp [apply0V3, Hmat, Fin.sum_univ_two, invsqrt2_mul_self] <;> ring_nf <;>
      rw [invsqrt2_sq] <;> ring
  have h7 : dj7 constDigits = fun m n k =>
      if m = 0 ∧ n = 0 then (if k = 1 then (-1 : ℂ) else 1) * invsqrt2 else 0 := by
    funext m n k
    rw [dj7, h6]
    fin_cases m <;> fin_cases n <;> fin_cases k <;>
      simp [apply1V3, Hmat, Fin.sum_univ_two] <;> ring_nf <;>
      rw [invsqrt2_sq] <;> ring
  funext m n k
  rw [dj8, h7]
  fin_cases m <;> fin_cases n <;> fin_cases k <;>
    simp [apply2V3, Hmat, basisV3, Fin.sum_univ_two, invsqrt2_mul_self] <;>
    ring_nf <;> rw [invsqrt2_sq] <;> ring

lemma dj8_bal_eq : dj8 balancedDigits = basisV3 1 0 1 := by
  have h6 : dj6 balancedDigits = fun m _ k =>
      if m = 1 then (if k = 1 then (-1 : ℂ) else 1) * (1 / 2 : ℂ) else 0 := by
    funext m n k
    rw [dj6, dj5_bal_eq]
    fin_cases m <;> fin_cases k <;>
      simp [apply0V3, Hmat, Fin.sum_univ_two, invsqrt2_mul_self] <;> ring_nf <;>
      rw [invsqrt2_sq] <;> ring
  have h7 : dj7 balancedDigits = fun m n k =>
      if m = 1 ∧ n = 0 then (if k = 1 then (-1 : ℂ) else 1) * invsqrt2 else 0 := by
    funext m n k
    rw [dj7, h6]
    fin_cases m <;> fin_cases n <;> fin_cases k <;>
      simp [apply1V3, Hmat, Fin.sum_univ_two] <;> ring_nf <;>
      rw [invsqrt2_sq] <;> ring
  funext m n k
  rw [dj8, h7]
  fin_cases m <;> fin_cases n <;> fin_cases k <;>
    simp [apply2V3, Hmat, basisV3, Fin.sum_univ_two, invsqrt2_mul_self] <;>
    ring_nf <;> rw [invsqrt2_sq] <;> ring

lemma basisV3_ne_zero (x y z : Fin 2) :
    basisV3 x y z ≠ (fun _ _ _ => (0 : ℂ)) := by
  intro h
  have h2 := congrFun (congrFun (congrFun h x) y) z
  simp [basisV3] at h2

lemma basis_norm (x y z : Fin 2) : norm3Sq (basisV3 x y z) = 1 := by
  fin_cases x <;> fin_cases y <;> fin_cases z <;>
    simp [norm3Sq, basisV3, Fin.sum_univ_two]

lemma proj0_basis_same (x y z : Fin 2) :
    proj0V3 x (basisV3 x y z) = basisV3 x y z := by
  funext m n k
  by_cases h : m = x <;> simp [proj0V3, basisV3, h]

lemma proj1_basis_same (x y z : Fin 2) :
    proj1V3 y (basisV3 x y z) = basisV3 x y z := by
  funext m n k
  by_cases h : n = y <;> simp [proj1V3, basisV3, h]

lemma proj2_basis_same (x y z : Fin 2) :
    proj2V3 z (basisV3 x y z) = basisV3 x y z := by
  funext m n k
  by_cases h : k = z <;> simp [proj2V3, basisV3, h]

lemma measure0_basis (x y z : Fin 2) :
    measure0V3 x (basisV3 x y z) = basisV3 x y z := by
  unfold measure0V3 normalizeV3
  rw [proj0_basis_same, basis_norm]
  funext m n k
  simp [Real.sqrt_one]

lemma measure1_basis (x y z : Fin 2) :
    measure1V3 y (basisV3 x y z) = basisV3 x y z := by
  unfold measure1V3 normalizeV3
  rw [proj1_basis_same, basis_norm]
  funext m n k
  simp [Real.sqrt_one]

lemma proj0_basis_forces {o x y z : Fin 2}
    (h : proj0V3 o (basisV3 x y z) ≠ fun _ _ _ => 0) : o = x := by
  by_contra hne
  apply h
  funext m n k
  by_cases hm : m = o
  · subst hm
    simp [proj0V3, basisV3, hne]
  · simp [proj0V3, hm]

lemma proj1_basis_forces {o x y z : Fin 2}
    (h : proj1V3 o (basisV3 x y z) ≠ fun _ _ _ => 0) : o = y := by
  by_contra hne
  apply h
  funext m n k
  by_cases hn : n = o
  · subst hn
    simp [proj1V3, basisV3, hne]
  · simp [proj1V3, hn]

lemma dj9_const_zero : dj9 constDigits 0 = basisV3 0 0 1 := by
  rw [dj9, dj8_const_eq]
  exact measure0_basis 0 0 1

lemma dj10_const_zero : dj10 constDigits 0 0 = basisV3 0 0 1 := by
  rw [dj10, dj9_const_zero]
  exact measure1_basis 0 0 1

/-- C6.  The Deutsch-Jozsa final check returns true iff both inputs `q1`
and `q2` measured to 0 in the final step; for every possible run with the
oracle built from `"12345678"` (a constant function) it returns true, and
for every possible run with the balanced-function permutation
`"12346587"` it returns false. -/
theorem claim_C6_deutsch_jozsa_final_check :
    (∀ o1 o2 : Fin 2,
        DeutschJozsa.check_results o1 o2 = true ↔ (o1 = 0 ∧ o2 = 0)) ∧
      (∀ o1 o2 o3 : Fin 2, DJ_valid constDigits o1 o2 o3 →
        DeutschJozsa.check_results o1 o2 = true) ∧
      (∀ o1 o2 o3 : Fin 2, DJ_valid balancedDigits o1 o2 o3 →
        DeutschJozsa.check_results o1 o2 = false) := by
  refine ⟨?_, ?_, ?_⟩
  · intro o1 o2
    simp [DeutschJozsa.check_results]
  · intro o1 o2 o3 hv
    obtain ⟨h1, h2, -⟩ := hv
    rw [dj8_const_eq] at h1
    have ho1 : o1 = 0 := proj0_basis_forces h1
    subst ho1
    rw [dj9_const_zero] at h2
    have ho2 : o2 = 0 := proj1_basis_forces h2
    subst ho2
    rfl
  · intro o1 o2 o3 hv
    obtain ⟨h1, -, -⟩ := hv
    rw [dj8_bal_eq] at h1
    have ho1 : o1 = 1 := proj0_basis_forces h1
    subst ho1
    rfl

/-- Witness for C6: the outcome triple `(0, 0, 1)` is a possible run with
the identity oracle, and the final check returns true on it. -/
theorem claim_C6_deutsch_jozsa_final_check_witness :
    DJ_valid constDigits 0 0 1 ∧ DeutschJozsa.check_results 0 0 = true := by
  have hv : DJ_valid constDigits 0 0 1 := by
    refine ⟨?_, ?_, ?_⟩
    · rw [dj8_const_eq, proj0_basis_same]
      exact basisV3_ne_zero 0 0 1
    · rw [dj9_const_zero, proj1_basis_same]
      exact basisV3_ne_zero 0 0 1
    · rw [dj10_const_zero, proj2_basis_same]
      exact basisV3_ne_zero 0 0 1
  exact ⟨hv, claim_C6_deutsch_jozsa_final_check.2.1 0 0 1 hv⟩
